import Mathlib

/-!
Verification of the local persistence and backup/restore subsystem of the
invoice-generator web app (`docs/js/storage.js`).

The storage layer is IndexedDB with four object stores, all using the
in-line key path `id`; `clients`, `invoices` and `timesheets` use an
auto-increment key generator, `company` does not.  We embed the relevant
IndexedDB semantics shallowly:

* JavaScript/JSON values are modelled by `Json`; stored records are objects
  (`Obj`, an ordered field list, matching JS property insertion order).
* IndexedDB keys occurring here are numbers or strings (`Key`).
* An object store is `ObjStore`: an insertion-ordered association list of
  records keyed by `Key`, plus the key-generator state (`keyGen`, the next
  number the generator would hand out, starting at 1) and the
  `autoIncrement` flag.  Per the IndexedDB specification, a `put` with an
  explicit numeric key bumps the generator to at least one past that key,
  and neither `clear` nor `delete` resets the generator.
* `put` with a record that carries no usable `id` either injects the
  generated key into the stored record (auto-increment stores) or throws
  DataError (the `company` store).  Inside `importAll`'s single
  read-write transaction such a throw is synchronous: it rejects the
  import, but it does not abort the IndexedDB transaction — the
  `clear()`/`put()` requests already queued still execute and the
  transaction auto-commits, so a failed import can commit a partial
  replacement (exactly the collections, and the prefix of records,
  processed before the throw).  Only a failure of the commit itself
  (storage error, quota exceeded, abort — the `commitOk` oracle) rolls
  the whole transaction back.
-/

/-- JSON-like JavaScript values, as stored and passed around by
`storage.js`. Numbers are restricted to naturals, which covers every value
the claims exercise. -/
inductive Json where
  | jnull : Json
  | jbool : Bool → Json
  | jnum : Nat → Json
  | jstr : String → Json
  | jarr : List Json → Json
  | jobj : List (String × Json) → Json

/-- A JavaScript object: ordered list of property/value pairs. -/
abbrev Obj := List (String × Json)

/-- An IndexedDB key as used by this app: a number or a string. -/
inductive Key where
  | num : Nat → Key
  | str : String → Key
deriving DecidableEq

/-- The valid key extracted from a JSON value, if any (`jnum`/`jstr`);
other values are not valid keys for this model. -/
def keyOfVal : Json → Option Key
  | .jnum n => some (.num n)
  | .jstr s => some (.str s)
  | _ => none

/-- The JSON value corresponding to a key. -/
def valOfKey : Key → Json
  | .num n => .jnum n
  | .str s => .jstr s

/-- Property access `o[k]` on an object (first binding wins, as JS objects
have unique property names). -/
def lookupField : Obj → String → Option Json
  | [], _ => none
  | (k', v) :: t, k => if k = k' then some v else lookupField t k

/-- Property assignment `o[k] = v`: updates the property in place if
present (JS keeps the original insertion position), otherwise appends. -/
def setField : Obj → String → Json → Obj
  | [], k, v => [(k, v)]
  | (k', v') :: t, k, v => if k = k' then (k, v) :: t else (k', v') :: setField t k v

/-- Lookup in a keyed record list (first match). -/
def findRec : List (Key × Obj) → Key → Option Obj
  | [], _ => none
  | (k', o) :: t, k => if k = k' then some o else findRec t k

/-- Insert-or-replace in a keyed record list: replaces the first record
with the same key in place, otherwise appends. -/
def insertAssoc : List (Key × Obj) → Key → Obj → List (Key × Obj)
  | [], k, o => [(k, o)]
  | (k', o') :: t, k, o => if k = k' then (k, o) :: t else (k', o') :: insertAssoc t k o

/-- Failure modes of the storage layer (§7 of the spec):
`invalidSnapshot k` is the `Invalid backup: missing or invalid "k" array`
error thrown by `importAll`; `dataError` is IndexedDB's DataError (no
usable key for a keyPath store without a key generator, or an invalid key
argument such as `NaN`); `storageFailure` is an asynchronous storage/commit
failure (medium unavailable, quota exceeded, transaction aborted). -/
inductive DBError where
  | invalidSnapshot : String → DBError
  | dataError : DBError
  | storageFailure : DBError
deriving DecidableEq

/-- One IndexedDB object store with in-line key path `id`:
its records (insertion-ordered, keyed), the key-generator state (next
number to assign), and the `autoIncrement` flag from `openDB`'s
`createObjectStore` calls. -/
structure ObjStore where
  data : List (Key × Obj)
  keyGen : Nat
  autoInc : Bool

/-- A fresh object store; IndexedDB key generators start at 1. -/
def initStore (auto : Bool) : ObjStore := ⟨[], 1, auto⟩

/-- `store.put(record)` (storage.js `put` reaches this via `promisify`):
if the record carries a valid `id`, upsert under that key, bumping the key
generator past a numeric key on auto-increment stores; if it carries no
`id`, an auto-increment store assigns the next generated key and injects
it into the stored record, and a store without a generator throws
DataError.  A non-object record also throws DataError. -/
def storePut (s : ObjStore) (v : Json) : Except DBError (Key × ObjStore) :=
  match v with
  | .jobj o =>
    match lookupField o "id" with
    | some idv =>
      match keyOfVal idv with
      | some k =>
        let g := match k with
          | .num n => if s.autoInc then max s.keyGen (n + 1) else s.keyGen
          | .str _ => s.keyGen
        .ok (k, ⟨insertAssoc s.data k o, g, s.autoInc⟩)
      | none => .error .dataError
    | none =>
      if s.autoInc then
        .ok (.num s.keyGen,
          ⟨insertAssoc s.data (.num s.keyGen) (setField o "id" (.jnum s.keyGen)),
           s.keyGen + 1, s.autoInc⟩)
      else .error .dataError
  | _ => .error .dataError

/-- `store.get(id)` (storage.js `getById`): absent is `none`, not an
error. -/
def storeGet (s : ObjStore) (k : Key) : Option Obj := findRec s.data k

/-- `store.delete(id)` (storage.js `deleteRecord`): removes the record if
present; deleting an absent key is a no-op.  The key generator is not
touched. -/
def storeDelete (s : ObjStore) (k : Key) : ObjStore :=
  ⟨s.data.filter (fun p => decide (p.1 ≠ k)), s.keyGen, s.autoInc⟩

/-- `store.clear()`: removes every record; the key generator is not
reset. -/
def storeClear (s : ObjStore) : ObjStore := ⟨[], s.keyGen, s.autoInc⟩

/-- `store.getAll()` (storage.js `getAll`): all records, here in insertion
order (the spec leaves the order unspecified). -/
def getAllStore (s : ObjStore) : List Obj := s.data.map Prod.snd

/-- The whole database: the four object stores created by `openDB`
(`clients`, `invoices`, `timesheets` auto-increment; `company` not). -/
structure DB where
  clients : ObjStore
  company : ObjStore
  invoices : ObjStore
  timesheets : ObjStore

/-- The database as first created by `openDB`'s `onupgradeneeded`. -/
def initDB : DB := ⟨initStore true, initStore false, initStore true, initStore true⟩

/-- Value of a string of decimal digits; `none` on any non-digit. -/
def digitsVal (acc : Nat) : List Char → Option Nat
  | [] => some acc
  | c :: t => if c.isDigit then digitsVal (acc * 10 + (c.toNat - 48)) t else none

/-- JavaScript `Number(key)` restricted to the keys of this model:
numbers pass through, the empty string is `0`, a string of decimal digits
is its value, and any other string is NaN (`none`).  (Full JS `Number`
semantics — floats, exponents, whitespace trimming — are outside what the
claims exercise.) -/
def jsToNumber : Key → Option Nat
  | .num n => some n
  | .str s =>
    match s.toList with
    | [] => some 0
    | cs => digitsVal 0 cs

/-- `clients.get(id)`: the identifier is passed through unchanged. -/
def clientsGet (db : DB) (k : Key) : Option Obj := storeGet db.clients k

/-- `clients.getAll()`. -/
def clientsGetAll (db : DB) : List Obj := getAllStore db.clients

/-- `clients.put(client)`. -/
def clientsPut (db : DB) (v : Json) : Except DBError (Key × DB) :=
  (storePut db.clients v).map fun p => (p.1, { db with clients := p.2 })

/-- `clients.delete(id)`: the identifier is coerced with `Number(id)`
before the delete; `Number` of a non-numeric string is NaN, an invalid
key (DataError). -/
def clientsDelete (db : DB) (k : Key) : Except DBError DB :=
  match jsToNumber k with
  | some n => .ok { db with clients := storeDelete db.clients (.num n) }
  | none => .error .dataError

/-- `invoices.save(invoice)`. -/
def invoicesSave (db : DB) (v : Json) : Except DBError (Key × DB) :=
  (storePut db.invoices v).map fun p => (p.1, { db with invoices := p.2 })

/-- `invoices.delete(id)` (same `Number` coercion as clients). -/
def invoicesDelete (db : DB) (k : Key) : Except DBError DB :=
  match jsToNumber k with
  | some n => .ok { db with invoices := storeDelete db.invoices (.num n) }
  | none => .error .dataError

/-- `timesheets.save(ts)`. -/
def timesheetsSave (db : DB) (v : Json) : Except DBError (Key × DB) :=
  (storePut db.timesheets v).map fun p => (p.1, { db with timesheets := p.2 })

/-- `timesheets.delete(id)` (same `Number` coercion as clients). -/
def timesheetsDelete (db : DB) (k : Key) : Except DBError DB :=
  match jsToNumber k with
  | some n => .ok { db with timesheets := storeDelete db.timesheets (.num n) }
  | none => .error .dataError

/-- The default company-settings object substituted by `company.get()`
when no record is stored under `'default'`. -/
def defaultCompany : Obj :=
  [("id", .jstr "default"), ("name", .jstr ""), ("email", .jstr ""),
   ("address", .jarr []), ("logo", .jstr ""), ("company_number", .jstr ""),
   ("vat_label", .jstr "VAT"), ("vat_number", .jstr "")]

/-- `company.get()`: the record stored under `'default'`, or the default
object. -/
def companyGet (db : DB) : Obj := (storeGet db.company (.str "default")).getD defaultCompany

/-- `company.save(settings)`: puts `{...settings, id: 'default'}` — the
spread keeps the insertion position of an existing `id` property but
forces its value to `'default'`. -/
def companySave (db : DB) (f : Obj) : Except DBError (Key × DB) :=
  (storePut db.company (.jobj (setField f "id" (.jstr "default")))).map
    fun p => (p.1, { db with company := p.2 })

/-- `exportAll`: the backup payload it serializes and downloads —
`version`, `exported_at` (the caller-supplied timestamp `ts`), and one
array per collection from `getAll`, record objects included verbatim. -/
def exportAll (ts : String) (db : DB) : Obj :=
  [("version", .jnum 1), ("exported_at", .jstr ts),
   ("clients", .jarr ((getAllStore db.clients).map Json.jobj)),
   ("company", .jarr ((getAllStore db.company).map Json.jobj)),
   ("invoices", .jarr ((getAllStore db.invoices).map Json.jobj)),
   ("timesheets", .jarr ((getAllStore db.timesheets).map Json.jobj))]

/-- The required snapshot keys, in the order `importAll` checks them. -/
def requiredKeys : List String := ["clients", "company", "invoices", "timesheets"]

/-- `Array.isArray(jsonObj[key])`. -/
def isArrayField (j : Obj) (k : String) : Bool :=
  match lookupField j k with
  | some (.jarr _) => true
  | _ => false

/-- The first required key whose value is missing or not an array — the
key named by the `Invalid backup` error `importAll` throws. -/
def firstBadKey (j : Obj) : Option String :=
  requiredKeys.find? (fun k => !isArrayField j k)

/-- `jsonObj[key]` as an array, after validation has established it is
one. -/
def getArrayField (j : Obj) (k : String) : List Json :=
  match lookupField j k with
  | some (.jarr l) => l
  | _ => []

/-- `store.put(record)` for each record in order, threading the store.
The first synchronous DataError stops the loop; the store then reflects
only the puts queued before the throw (they are already requests on the
transaction and will commit with it), and the error is reported
alongside. -/
def putList (s : ObjStore) : List Json → ObjStore × Option DBError
  | [] => (s, none)
  | r :: t =>
    match storePut s r with
    | .error e => (s, some e)
    | .ok p => putList p.2 t

/-- The writes `clearAndPut` queues for one store inside the import
transaction: `store.clear()` followed by `store.put(record)` for each
record of the snapshot's array, in order.  A DataError thrown by a `put`
leaves the clear and the earlier puts queued. -/
def clearAndPut (s : ObjStore) (records : List Json) : ObjStore × Option DBError :=
  putList (storeClear s) records

/-- The writes queued on the import transaction by the four sequential
`clearAndPut` calls.  A synchronous DataError propagates out of
`importAll` at once, so later collections are not touched; the returned
database is what the transaction will commit (the processed prefix),
paired with the error if one was thrown. -/
def stageStores (db : DB) (cs cos is tss : List Json) : DB × Option DBError :=
  match clearAndPut db.clients cs with
  | (c1, some e) => ({ db with clients := c1 }, some e)
  | (c1, none) =>
    match clearAndPut db.company cos with
    | (c2, some e) => ({ db with clients := c1, company := c2 }, some e)
    | (c2, none) =>
      match clearAndPut db.invoices is with
      | (c3, some e) => ({ db with clients := c1, company := c2, invoices := c3 }, some e)
      | (c3, none) =>
        match clearAndPut db.timesheets tss with
        | (c4, some e) => (⟨c1, c2, c3, c4⟩, some e)
        | (c4, none) => (⟨c1, c2, c3, c4⟩, none)

/-- The counts object a successful `importAll` resolves with — note it
reports `clients`, `invoices` and `timesheets` only. -/
structure ImportCounts where
  clients : Nat
  invoices : Nat
  timesheets : Nat
deriving DecidableEq

/-- `importAll(jsonObj)`: validate the four required keys in order,
throwing `Invalid backup` naming the first offending key before touching
any store; then, in one read-write transaction spanning all four stores,
clear-and-put every collection from its snapshot array.  A synchronous
DataError rejects the import but does not abort the transaction: the
writes already queued (`stageStores`) still commit — unless the commit
itself fails (the `commitOk` oracle: storage error, quota exceeded,
abort), which rolls everything back.  Returns the resulting database
together with the outcome the caller observes. -/
def importAll (j : Obj) (db : DB) (commitOk : Bool) : DB × Except DBError ImportCounts :=
  match firstBadKey j with
  | some k => (db, .error (.invalidSnapshot k))
  | none =>
    let cs := getArrayField j "clients"
    let cos := getArrayField j "company"
    let is := getArrayField j "invoices"
    let tss := getArrayField j "timesheets"
    match stageStores db cs cos is tss with
    | (db', some e) => (if commitOk then db' else db, .error e)
    | (db', none) =>
      if commitOk then (db', .ok ⟨cs.length, is.length, tss.length⟩)
      else (db, .error .storageFailure)

/-- One public write operation against the database (the `window.db`
interface); reads are omitted since they do not change state. -/
inductive DBOp where
  | cput : Json → DBOp
  | cdel : Key → DBOp
  | iput : Json → DBOp
  | idel : Key → DBOp
  | tput : Json → DBOp
  | tdel : Key → DBOp
  | csave : Obj → DBOp
  | imp : Obj → Bool → DBOp

/-- Apply one operation; a failed operation leaves the database
unchanged (the failure is surfaced to the caller, §7). -/
def applyOp (db : DB) : DBOp → DB
  | .cput v => match clientsPut db v with | .ok p => p.2 | .error _ => db
  | .cdel k => match clientsDelete db k with | .ok d => d | .error _ => db
  | .iput v => match invoicesSave db v with | .ok p => p.2 | .error _ => db
  | .idel k => match invoicesDelete db k with | .ok d => d | .error _ => db
  | .tput v => match timesheetsSave db v with | .ok p => p.2 | .error _ => db
  | .tdel k => match timesheetsDelete db k with | .ok d => d | .error _ => db
  | .csave f => match companySave db f with | .ok p => p.2 | .error _ => db
  | .imp j b => (importAll j db b).1

/-- A database state reachable from the fresh database through the public
interface. -/
def Reach (db : DB) : Prop := ∃ ops : List DBOp, db = ops.foldl applyOp initDB

/-- One operation against a single object store, for per-collection
traces. -/
inductive SOp where
  | sput : Json → SOp
  | sdel : Key → SOp

/-- Apply one single-store operation (a failed `put` changes nothing). -/
def stepStore (s : ObjStore) : SOp → ObjStore
  | .sput v => match storePut s v with | .ok p => p.2 | .error _ => s
  | .sdel k => storeDelete s k

/-- The identifier this operation makes the key generator assign, if it is
a `put` of a record carrying no identifier on an auto-increment store. -/
def autoKey (s : ObjStore) : SOp → Option Nat
  | .sput (.jobj o) =>
    match lookupField o "id" with
    | none => if s.autoInc then some s.keyGen else none
    | some _ => none
  | _ => none

/-- All identifiers auto-assigned along a trace of single-store
operations, in order. -/
def assignedIds (s : ObjStore) : List SOp → List Nat
  | [] => []
  | op :: rest => (autoKey s op).toList ++ assignedIds (stepStore s op) rest

/-- Store well-formedness, invariant under every operation: record keys
are distinct; every stored record carries its own key in its `id` field
(key path `id` is in-line); on an auto-increment store every numeric key
is below the generator's next value. -/
structure StoreWF (s : ObjStore) : Prop where
  keysNodup : (s.data.map Prod.fst).Nodup
  idMatches : ∀ p ∈ s.data, lookupField p.2 "id" = some (valOfKey p.1)
  genBound : s.autoInc = true → ∀ n, Key.num n ∈ s.data.map Prod.fst → n < s.keyGen

/-- Database well-formedness: all four stores well-formed, with the
auto-increment flags `openDB` configured. -/
structure DBWF (db : DB) : Prop where
  wfc : StoreWF db.clients
  wfco : StoreWF db.company
  wfi : StoreWF db.invoices
  wft : StoreWF db.timesheets
  autoc : db.clients.autoInc = true
  autoi : db.invoices.autoInc = true
  autot : db.timesheets.autoInc = true

/-- Key-generator update caused by storing one explicit key (per the
IndexedDB spec, an explicit numeric key moves an auto-increment generator
past it; string keys and generator-less stores leave it alone). -/
def bumpKey (a : Bool) (g : Nat) : Key → Nat
  | .num n => if a then max g (n + 1) else g
  | .str _ => g

/-- Key-generator state after storing a list of explicitly keyed
records. -/
def bumpGen (a : Bool) (g : Nat) : List (Key × Obj) → Nat
  | [] => g
  | p :: t => bumpGen a (bumpKey a g p.1) t

/-- The key and object of a snapshot record that carries a usable
identifier. -/
def recPair : Json → Option (Key × Obj)
  | .jobj o =>
    match lookupField o "id" with
    | some idv => (keyOfVal idv).map fun k => (k, o)
    | none => none
  | _ => none

/-- Keys and objects of a whole snapshot array, when every record carries
a usable identifier. -/
def recPairs (l : List Json) : Option (List (Key × Obj)) := l.mapM recPair

/-- The singleton-collection invariant of §3: the company store holds at
most one record, stored under the fixed key `'default'`. -/
def CompanySingleton (db : DB) : Prop :=
  db.company.data = [] ∨ ∃ o, db.company.data = [(Key.str "default", o)]

/-- Restriction on imports under which the singleton invariant is
preserved: the snapshot's company array holds at most one record, keyed
`'default'` (true of every snapshot exported from a singleton state). -/
def companySnapOk : DBOp → Prop
  | .imp j _ => ∀ l, lookupField j "company" = some (.jarr l) →
      l = [] ∨ ∃ o, l = [Json.jobj o] ∧ lookupField o "id" = some (.jstr "default")
  | _ => True

/-- A well-formed snapshot with all four collections empty. -/
def snapEmpty : Obj :=
  [("clients", .jarr []), ("company", .jarr []), ("invoices", .jarr []), ("timesheets", .jarr [])]

/-- The spec's malformed snapshot: `invoices` bound to a non-array. -/
def snapBadInvoices : Obj :=
  [("clients", .jarr []), ("company", .jarr []), ("invoices", .jstr "not-an-array"),
   ("timesheets", .jarr [])]

/-- A well-formed snapshot whose single client record carries no
identifier. -/
def snapNoId : Obj :=
  [("clients", .jarr [.jobj [("name", .jstr "A")]]), ("company", .jarr []),
   ("invoices", .jarr []), ("timesheets", .jarr [])]

/-- A well-formed snapshot with one identified client record. -/
def snapOneClient : Obj :=
  [("clients", .jarr [.jobj [("id", .jnum 1), ("name", .jstr "A")]]), ("company", .jarr []),
   ("invoices", .jarr []), ("timesheets", .jarr [])]

/-- A well-formed snapshot whose company array holds two records under
two distinct identifiers. -/
def snapTwoCompany : Obj :=
  [("clients", .jarr []),
   ("company", .jarr [.jobj [("id", .jstr "a")], .jobj [("id", .jstr "b")]]),
   ("invoices", .jarr []), ("timesheets", .jarr [])]

/-- A well-formed snapshot whose company array holds one record. -/
def snapOneCompany : Obj :=
  [("clients", .jarr []), ("company", .jarr [.jobj [("id", .jstr "default")]]),
   ("invoices", .jarr []), ("timesheets", .jarr [])]

/-- A well-formed snapshot storing one client under the number 1 and one
under the string "1". -/
def snapMixedIds : Obj :=
  [("clients", .jarr [.jobj [("id", .jnum 1)], .jobj [("id", .jstr "1")]]),
   ("company", .jarr []), ("invoices", .jarr []), ("timesheets", .jarr [])]

/-- A database holding one client under numeric identifier 1. -/
def dbOneClient : DB :=
  ⟨⟨[(.num 1, [("id", .jnum 1), ("name", .jstr "X")])], 2, true⟩,
   initStore false, initStore true, initStore true⟩

/-- A well-formed snapshot (all four values are arrays) whose company
record `{}` carries no identifier — the company store has no key
generator, so `store.put({})` throws DataError inside the transaction. -/
def snapBadCompanyRec : Obj :=
  [("clients", .jarr []), ("company", .jarr [.jobj []]),
   ("invoices", .jarr []), ("timesheets", .jarr [])]

/-- A database holding two clients, to make lost records observable. -/
def dbTwoClients : DB :=
  ⟨⟨[(.num 1, [("id", .jnum 1), ("name", .jstr "A")]),
     (.num 2, [("id", .jnum 2), ("name", .jstr "B")])], 3, true⟩,
   initStore false, initStore true, initStore true⟩

/-- A snapshot with 2 clients, 1 company record, 1 invoice and 0
timesheets. -/
def snapCounts : Obj :=
  [("clients", .jarr [.jobj [("id", .jnum 1)], .jobj [("id", .jnum 2)]]),
   ("company", .jarr [.jobj [("id", .jstr "default")]]),
   ("invoices", .jarr [.jobj [("id", .jnum 7)]]),
   ("timesheets", .jarr [])]

/-- A key extracted from a JSON value maps back to that value. -/
theorem valOfKey_keyOfVal {v : Json} {k : Key} (h : keyOfVal v = some k) :
    valOfKey k = v := by
  cases v <;> simp [keyOfVal] at h <;> simp [← h, valOfKey]

/-- Reading back a just-assigned property. -/
theorem lookupField_setField (o : Obj) (k : String) (v : Json) :
    lookupField (setField o k v) k = some v := by
  induction o with
  | nil => simp [setField, lookupField]
  | cons p t ih =>
    by_cases h : k = p.1
    · simp [setField, h, lookupField]
    · simp [setField, lookupField, h, ih]

/-- Reading back a just-inserted record. -/
theorem findRec_insertAssoc_self (d : List (Key × Obj)) (k : Key) (o : Obj) :
    findRec (insertAssoc d k o) k = some o := by
  induction d with
  | nil => simp [insertAssoc, findRec]
  | cons p t ih =>
    by_cases h : k = p.1
    · simp [insertAssoc, h, findRec]
    · simp [insertAssoc, findRec, h, ih]

/-- Insert-or-replace with the same key and record twice is the same as
once. -/
theorem insertAssoc_idem (d : List (Key × Obj)) (k : Key) (o : Obj) :
    insertAssoc (insertAssoc d k o) k o = insertAssoc d k o := by
  induction d with
  | nil => simp [insertAssoc]
  | cons p t ih =>
    by_cases h : k = p.1
    · simp [insertAssoc, h]
    · simp [insertAssoc, h, ih]

/-- Inserting a fresh key appends. -/
theorem insertAssoc_fresh {d : List (Key × Obj)} {k : Key} (o : Obj)
    (h : k ∉ d.map Prod.fst) : insertAssoc d k o = d ++ [(k, o)] := by
  induction d with
  | nil => simp [insertAssoc]
  | cons p t ih =>
    simp only [List.map_cons, List.mem_cons] at h
    push_neg at h
    simp [insertAssoc, h.1, ih h.2]

/-- The key list after an insert-or-replace. -/
theorem map_fst_insertAssoc (d : List (Key × Obj)) (k : Key) (o : Obj) :
    (insertAssoc d k o).map Prod.fst =
      if k ∈ d.map Prod.fst then d.map Prod.fst else d.map Prod.fst ++ [k] := by
  induction d with
  | nil => simp [insertAssoc]
  | cons p t ih =>
    by_cases h : k = p.1
    · simp [insertAssoc, h]
    · simp only [insertAssoc, if_neg h, List.map_cons, ih, List.mem_cons]
      by_cases h2 : k ∈ t.map Prod.fst
      · simp [h2, Ne.symm, h]
      · simp [h2, h]

/-- Insert-or-replace keeps the key list duplicate-free. -/
theorem nodup_insertAssoc {d : List (Key × Obj)} (k : Key) (o : Obj)
    (h : (d.map Prod.fst).Nodup) : ((insertAssoc d k o).map Prod.fst).Nodup := by
  rw [map_fst_insertAssoc]
  by_cases hm : k ∈ d.map Prod.fst
  · simpa [hm] using h
  · rw [if_neg hm]
    exact List.Nodup.append h (List.nodup_singleton k)
      (fun a ha hk => hm (by simp only [List.mem_singleton] at hk; exact hk ▸ ha))

/-- Membership after insert-or-replace. -/
theorem mem_insertAssoc {d : List (Key × Obj)} {k : Key} {o : Obj} {p : Key × Obj}
    (h : p ∈ insertAssoc d k o) : p = (k, o) ∨ p ∈ d := by
  induction d with
  | nil => simpa [insertAssoc] using h
  | cons q t ih =>
    by_cases hk : k = q.1
    · simp only [insertAssoc, if_pos hk, List.mem_cons] at h
      rcases h with h | h
      · exact Or.inl h
      · exact Or.inr (List.mem_cons_of_mem _ h)
    · simp only [insertAssoc, if_neg hk, List.mem_cons] at h
      rcases h with h | h
      · exact Or.inr (h ▸ List.mem_cons_self _ _)
      · rcases ih h with h' | h'
        · exact Or.inl h'
        · exact Or.inr (List.mem_cons_of_mem _ h')

/-- No record with key `k` survives filtering `k` out. -/
theorem findRec_filter_ne (d : List (Key × Obj)) (k : Key) :
    findRec (d.filter (fun p => decide (p.1 ≠ k))) k = none := by
  induction d with
  | nil => simp [findRec]
  | cons p t ih =>
    by_cases h : p.1 = k
    · simpa [List.filter_cons, h] using ih
    · have hne : ¬ k = p.1 := fun hh => h hh.symm
      simp only [List.filter_cons, decide_not]
      rw [if_pos (by simpa using h), findRec, if_neg hne]
      simpa using ih

/-- Filtering for an absent key yields nothing. -/
theorem filter_key_eq_nil {d : List (Key × Obj)} {k : Key} (h : k ∉ d.map Prod.fst) :
    d.filter (fun p => decide (p.1 = k)) = [] := by
  induction d with
  | nil => rfl
  | cons p t ih =>
    simp only [List.map_cons, List.mem_cons] at h
    push_neg at h
    have hne : ¬ p.1 = k := fun hh => h.1 hh.symm
    simp [List.filter_cons, hne, ih h.2]

/-- With duplicate-free keys, the records keyed `k` after an
insert-or-replace are exactly the inserted one. -/
theorem filter_insertAssoc {d : List (Key × Obj)} (k : Key) (o : Obj)
    (h : (d.map Prod.fst).Nodup) :
    (insertAssoc d k o).filter (fun p => decide (p.1 = k)) = [(k, o)] := by
  induction d with
  | nil => simp [insertAssoc]
  | cons p t ih =>
    obtain ⟨pk, po⟩ := p
    simp only [List.map_cons, List.nodup_cons] at h
    by_cases hk : k = pk
    · subst hk
      have hfil : t.filter (fun q => decide (q.1 = k)) = [] := filter_key_eq_nil h.1
      rw [insertAssoc, if_pos rfl, List.filter_cons, hfil]
      simp
    · have hne : ¬ pk = k := fun hh => hk hh.symm
      rw [insertAssoc, if_neg hk, List.filter_cons]
      simp [hne, ih h.2]

/-- `storePut` errors are DataError. -/
theorem storePut_error {s : ObjStore} {v : Json} {e : DBError}
    (h : storePut s v = .error e) : e = .dataError := by
  unfold storePut at h
  repeat' split at h
  all_goals simp_all

/-- `putList` errors are DataError. -/
theorem putList_error {records : List Json} {s : ObjStore} {e : DBError}
    (h : (putList s records).2 = some e) : e = .dataError := by
  induction records generalizing s with
  | nil => simp [putList] at h
  | cons r t ih =>
    rw [putList] at h
    rcases hp : storePut s r with e' | p <;> rw [hp] at h
    · cases h
      exact storePut_error hp
    · exact ih h

/-- `clearAndPut` errors are DataError. -/
theorem clearAndPut_error {records : List Json} {s : ObjStore} {e : DBError}
    (h : (clearAndPut s records).2 = some e) : e = .dataError := by
  rw [clearAndPut] at h
  exact putList_error h

/-- A key round-trips through its JSON value. -/
theorem keyOfVal_valOfKey_self (k : Key) : keyOfVal (valOfKey k) = some k := by
  cases k <;> rfl

/-- If every numeric key is already below the generator, storing them
does not move it. -/
theorem bumpGen_eq_of_bound (l : List (Key × Obj)) (g : Nat) (a : Bool)
    (h : a = true → ∀ n, Key.num n ∈ l.map Prod.fst → n < g) :
    bumpGen a g l = g := by
  induction l with
  | nil => rfl
  | cons p t ih =>
    have hb : bumpKey a g p.1 = g := by
      cases hp : p.1 with
      | num n =>
        cases a with
        | false => rfl
        | true =>
          have : n < g := h rfl n (by rw [← hp]; exact List.mem_map_of_mem Prod.fst (List.mem_cons_self _ _))
          simp [bumpKey, Nat.max_eq_left this]
      | str s => rfl
    rw [bumpGen, hb]
    exact ih (fun ha n hm => h ha n (List.map_cons Prod.fst p t ▸ List.mem_cons_of_mem _ hm))

/-- Storing one record that carries its key: the `storePut` equation for
the explicit-identifier path. -/
theorem storePut_explicit {o : Obj} {k : Key} (s : ObjStore)
    (hid : lookupField o "id" = some (valOfKey k)) :
    storePut s (.jobj o) =
      .ok (k, ⟨insertAssoc s.data k o, bumpKey s.autoInc s.keyGen k, s.autoInc⟩) := by
  simp only [storePut, hid, keyOfVal_valOfKey_self k]
  cases k <;> simp [bumpKey]

/-- Putting a list of records that each carry a key fresh for the
accumulated contents appends them all, in order. -/
theorem putList_explicit (l : List (Key × Obj)) (acc : List (Key × Obj)) (g : Nat) (a : Bool)
    (hid : ∀ p ∈ l, lookupField p.2 "id" = some (valOfKey p.1))
    (hnd : ((acc ++ l).map Prod.fst).Nodup) :
    putList ⟨acc, g, a⟩ (l.map fun p => Json.jobj p.2) = (⟨acc ++ l, bumpGen a g l, a⟩, none) := by
  induction l generalizing acc g with
  | nil => simp [putList, bumpGen]
  | cons p t ih =>
    obtain ⟨k, o⟩ := p
    have hido : lookupField o "id" = some (valOfKey k) := hid (k, o) (List.mem_cons_self _ _)
    have hnd' := hnd
    rw [List.map_append, List.map_cons, List.nodup_append] at hnd'
    have hfresh : k ∉ acc.map Prod.fst := fun hm => hnd'.2.2 hm (List.mem_cons_self _ _)
    rw [List.map_cons, putList, storePut_explicit ⟨acc, g, a⟩ hido]
    have happ : insertAssoc acc k o = acc ++ [(k, o)] := insertAssoc_fresh o hfresh
    have hnd2 : (((acc ++ [(k, o)]) ++ t).map Prod.fst).Nodup := by
      rw [List.append_assoc, List.singleton_append]
      exact hnd
    have hidt : ∀ p ∈ t, lookupField p.2 "id" = some (valOfKey p.1) :=
      fun p hp => hid p (List.mem_cons_of_mem _ hp)
    simp only [happ]
    rw [ih (acc ++ [(k, o)]) (bumpKey a g k) hidt hnd2]
    rw [List.append_assoc, List.singleton_append]
    rfl

/-- Restoring a store from a list of explicitly keyed, duplicate-free
records: the result holds exactly those records, in order. -/
theorem clearAndPut_explicit (s : ObjStore) (l : List (Key × Obj))
    (hid : ∀ p ∈ l, lookupField p.2 "id" = some (valOfKey p.1))
    (hnd : (l.map Prod.fst).Nodup) :
    clearAndPut s (l.map fun p => Json.jobj p.2) =
      (⟨l, bumpGen s.autoInc s.keyGen l, s.autoInc⟩, none) := by
  have h := putList_explicit l [] s.keyGen s.autoInc hid (by simpa using hnd)
  simpa [clearAndPut, storeClear] using h

/-- Restoring a well-formed store from its own contents reproduces it
exactly, key generator included. -/
theorem clearAndPut_getAll (s : ObjStore) (wf : StoreWF s) :
    clearAndPut s ((getAllStore s).map Json.jobj) = (s, none) := by
  have h1 : (getAllStore s).map Json.jobj = s.data.map (fun p => Json.jobj p.2) := by
    simp [getAllStore, List.map_map]
  rw [h1, clearAndPut_explicit s s.data wf.idMatches wf.keysNodup,
    bumpGen_eq_of_bound _ _ _ wf.genBound]

/-- Shape of every successful `storePut`: either the record carried the
key, or the key generator assigned it and injected it. -/
theorem storePut_ok_cases {s : ObjStore} {v : Json} {k : Key} {s' : ObjStore}
    (h : storePut s v = .ok (k, s')) :
    (∃ o, v = .jobj o ∧ lookupField o "id" = some (valOfKey k) ∧
      s' = ⟨insertAssoc s.data k o, bumpKey s.autoInc s.keyGen k, s.autoInc⟩) ∨
    (∃ o, v = .jobj o ∧ lookupField o "id" = none ∧ s.autoInc = true ∧ k = .num s.keyGen ∧
      s' = ⟨insertAssoc s.data (.num s.keyGen) (setField o "id" (.jnum s.keyGen)),
            s.keyGen + 1, s.autoInc⟩) := by
  unfold storePut at h
  split at h
  next o =>
    split at h
    next idv heq1 =>
      split at h
      next k0 heq2 =>
        cases h
        left
        refine ⟨o, rfl, ?_, ?_⟩
        · rw [heq1, valOfKey_keyOfVal heq2]
        · cases k <;> rfl
      next heq2 => exact absurd h (by simp)
    next heq1 =>
      split at h
      next ha =>
        cases h
        right
        exact ⟨o, rfl, heq1, ha, rfl, rfl⟩
      next ha => exact absurd h (by simp)
  next hv => exact absurd h (by simp)

/-- `storePut` keeps the store's auto-increment configuration. -/
theorem storePut_autoInc {s : ObjStore} {v : Json} {k : Key} {s' : ObjStore}
    (h : storePut s v = .ok (k, s')) : s'.autoInc = s.autoInc := by
  rcases storePut_ok_cases h with ⟨o, _, _, hs⟩ | ⟨o, _, _, _, _, hs⟩ <;> rw [hs]

/-- `storePut` never decreases the key generator. -/
theorem storePut_keyGen_le {s : ObjStore} {v : Json} {k : Key} {s' : ObjStore}
    (h : storePut s v = .ok (k, s')) : s.keyGen ≤ s'.keyGen := by
  rcases storePut_ok_cases h with ⟨o, _, _, hs⟩ | ⟨o, _, _, _, _, hs⟩ <;> rw [hs]
  · cases k with
    | num n =>
      by_cases ha : s.autoInc = true <;> simp [bumpKey, ha, Nat.le_max_left]
    | str st => exact Nat.le_refl _
  · exact Nat.le_succ _

/-- One record's contribution to store length. -/
theorem insertAssoc_length (d : List (Key × Obj)) (k : Key) (o : Obj) :
    (insertAssoc d k o).length ≤ d.length + 1 := by
  induction d with
  | nil => simp [insertAssoc]
  | cons p t ih =>
    by_cases h : k = p.1
    · simp [insertAssoc, h]
    · simp only [insertAssoc, if_neg h, List.length_cons]
      exact Nat.succ_le_succ ih

/-- `storePut` grows the store by at most one record. -/
theorem storePut_length {s : ObjStore} {v : Json} {k : Key} {s' : ObjStore}
    (h : storePut s v = .ok (k, s')) : s'.data.length ≤ s.data.length + 1 := by
  rcases storePut_ok_cases h with ⟨o, _, _, hs⟩ | ⟨o, _, _, _, _, hs⟩ <;> rw [hs] <;>
    exact insertAssoc_length _ _ _

/-- `putList` grows the store by at most the number of records put,
whether or not a put throws. -/
theorem putList_length {records : List Json} {s : ObjStore} :
    (putList s records).1.data.length ≤ s.data.length + records.length := by
  induction records generalizing s with
  | nil => exact Nat.le_refl _
  | cons r t ih =>
    rw [putList]
    rcases hp : storePut s r with e | p
    · exact Nat.le_add_right _ _
    · obtain ⟨k, s1⟩ := p
      have h1 := storePut_length hp
      calc (putList s1 t).1.data.length ≤ s1.data.length + t.length := ih
        _ ≤ (s.data.length + 1) + t.length := Nat.add_le_add_right h1 _
        _ = s.data.length + (r :: t).length := by simp [List.length_cons]; ring

/-- `storePut` preserves store well-formedness. -/
theorem storeWF_put {s : ObjStore} {v : Json} {k : Key} {s' : ObjStore}
    (wf : StoreWF s) (h : storePut s v = .ok (k, s')) : StoreWF s' := by
  rcases storePut_ok_cases h with ⟨o, _, hid, hs⟩ | ⟨o, _, hid, ha, hk, hs⟩
  · subst hs
    refine ⟨nodup_insertAssoc _ _ wf.keysNodup, ?_, ?_⟩
    · intro p hp
      rcases mem_insertAssoc hp with hp | hp
      · rw [hp]
        exact hid
      · exact wf.idMatches p hp
    · intro ha n hn
      rw [map_fst_insertAssoc] at hn
      have hstep : ∀ m, Key.num m ∈ s.data.map Prod.fst → m < bumpKey s.autoInc s.keyGen k := by
        intro m hm
        have hlt := wf.genBound ha m hm
        cases k with
        | num n' =>
          simp only [bumpKey]
          rw [if_pos ha]
          exact Nat.lt_of_lt_of_le hlt (Nat.le_max_left _ _)
        | str st => simpa [bumpKey] using hlt
      by_cases hmem : k ∈ s.data.map Prod.fst
      · rw [if_pos hmem] at hn
        exact hstep n hn
      · rw [if_neg hmem] at hn
        rcases List.mem_append.mp hn with hn | hn
        · exact hstep n hn
        · have hkn : Key.num n = k := by simpa using hn
          cases hkn
          simp only [bumpKey]
          rw [if_pos ha]
          exact Nat.lt_of_lt_of_le (Nat.lt_succ_self n) (Nat.le_max_right _ _)
  · subst hs
    subst hk
    have hfresh : Key.num s.keyGen ∉ s.data.map Prod.fst :=
      fun hm => Nat.lt_irrefl _ (wf.genBound ha _ hm)
    refine ⟨?_, ?_, ?_⟩
    · rw [map_fst_insertAssoc, if_neg hfresh]
      exact List.Nodup.append wf.keysNodup (List.nodup_singleton _)
        (fun x hx h1 => hfresh (by simp only [List.mem_singleton] at h1; exact h1 ▸ hx))
    · intro p hp
      rcases mem_insertAssoc hp with hp | hp
      · rw [hp]
        exact lookupField_setField o "id" (.jnum s.keyGen)
      · exact wf.idMatches p hp
    · intro _ n hn
      rw [map_fst_insertAssoc, if_neg hfresh] at hn
      rcases List.mem_append.mp hn with hn | hn
      · exact Nat.lt_succ_of_lt (wf.genBound ha n hn)
      · have h2 : n = s.keyGen := by simpa using hn
        subst h2
        exact Nat.lt_succ_self _

/-- `storeDelete` preserves store well-formedness. -/
theorem storeWF_delete {s : ObjStore} (wf : StoreWF s) (k : Key) :
    StoreWF (storeDelete s k) := by
  refine ⟨?_, ?_, ?_⟩
  · exact List.Nodup.sublist ((List.filter_sublist _).map Prod.fst) wf.keysNodup
  · intro p hp
    exact wf.idMatches p (List.mem_of_mem_filter hp)
  · intro ha n hn
    simp only [storeDelete] at hn
    rcases List.mem_map.mp hn with ⟨p, hp, hpk⟩
    exact wf.genBound ha n (hpk ▸ List.mem_map_of_mem Prod.fst (List.mem_of_mem_filter hp))

/-- `storeClear` preserves store well-formedness. -/
theorem storeWF_clear {s : ObjStore} (wf : StoreWF s) : StoreWF (storeClear s) := by
  refine ⟨List.nodup_nil, ?_, ?_⟩ <;> simp [storeClear]

/-- Fresh stores are well-formed. -/
theorem storeWF_init (auto : Bool) : StoreWF (initStore auto) := by
  refine ⟨List.nodup_nil, ?_, ?_⟩ <;> simp [initStore]

/-- `putList` preserves store well-formedness, on the error path too (the
store before the throwing put is what commits). -/
theorem storeWF_putList {records : List Json} {s : ObjStore}
    (wf : StoreWF s) : StoreWF (putList s records).1 := by
  induction records generalizing s with
  | nil => exact wf
  | cons r t ih =>
    rw [putList]
    rcases hp : storePut s r with e | p
    · exact wf
    · obtain ⟨k, s1⟩ := p
      exact ih (storeWF_put wf hp)

/-- `putList` keeps the auto-increment configuration. -/
theorem putList_autoInc {records : List Json} {s : ObjStore} :
    (putList s records).1.autoInc = s.autoInc := by
  induction records generalizing s with
  | nil => rfl
  | cons r t ih =>
    rw [putList]
    rcases hp : storePut s r with e | p
    · rfl
    · obtain ⟨k, s1⟩ := p
      exact ih.trans (storePut_autoInc hp)

/-- `clearAndPut` preserves store well-formedness, on the error path
too. -/
theorem storeWF_clearAndPut {records : List Json} {s : ObjStore}
    (wf : StoreWF s) : StoreWF (clearAndPut s records).1 := by
  rw [clearAndPut]
  exact storeWF_putList (storeWF_clear wf)

/-- `clearAndPut` keeps the auto-increment configuration. -/
theorem clearAndPut_autoInc {records : List Json} {s : ObjStore} :
    (clearAndPut s records).1.autoInc = s.autoInc := by
  rw [clearAndPut]
  exact putList_autoInc (s := storeClear s)

/-- Evaluation of `importAll` once validation has passed. -/
theorem importAll_run (j : Obj) (db : DB) (b : Bool) (h : firstBadKey j = none) :
    importAll j db b =
      (match stageStores db (getArrayField j "clients") (getArrayField j "company")
          (getArrayField j "invoices") (getArrayField j "timesheets") with
      | (db', some e) => (if b then db' else db, .error e)
      | (db', none) =>
        if b then
          (db', .ok ⟨(getArrayField j "clients").length, (getArrayField j "invoices").length,
                     (getArrayField j "timesheets").length⟩)
        else (db, .error .storageFailure) :
        DB × Except DBError ImportCounts) := by
  unfold importAll
  rw [h]

/-- Evaluation of `importAll` when validation fails. -/
theorem importAll_bad {j : Obj} {k : String} (db : DB) (b : Bool)
    (h : firstBadKey j = some k) :
    importAll j db b = (db, .error (.invalidSnapshot k)) := by
  unfold importAll
  rw [h]

/-- Errors reported by the staging pass are DataErrors. -/
theorem stageStores_error {db : DB} {cs cos is tss : List Json} {e : DBError}
    (h : (stageStores db cs cos is tss).2 = some e) : e = .dataError := by
  rw [stageStores] at h
  rcases h1 : clearAndPut db.clients cs with ⟨c1, e1⟩
  rw [h1] at h
  cases e1 with
  | some e1 =>
    cases h
    exact clearAndPut_error (by rw [h1])
  | none =>
    rcases h2 : clearAndPut db.company cos with ⟨c2, e2⟩
    rw [h2] at h
    cases e2 with
    | some e2 =>
      cases h
      exact clearAndPut_error (by rw [h2])
    | none =>
      rcases h3 : clearAndPut db.invoices is with ⟨c3, e3⟩
      rw [h3] at h
      cases e3 with
      | some e3 =>
        cases h
        exact clearAndPut_error (by rw [h3])
      | none =>
        rcases h4 : clearAndPut db.timesheets tss with ⟨c4, e4⟩
        rw [h4] at h
        cases e4 with
        | some e4 =>
          cases h
          exact clearAndPut_error (by rw [h4])
        | none => exact Option.noConfusion h

/-- The staging pass preserves database well-formedness, on every path —
partial results commit, so they must stay well-formed too. -/
theorem stageStores_wf {db : DB} (wf : DBWF db) (cs cos is tss : List Json) :
    DBWF (stageStores db cs cos is tss).1 := by
  rw [stageStores]
  rcases h1 : clearAndPut db.clients cs with ⟨c1, e1⟩
  have w1 : StoreWF c1 := by
    have h : StoreWF (clearAndPut db.clients cs).1 := storeWF_clearAndPut wf.wfc
    rwa [h1] at h
  have a1 : c1.autoInc = true := by
    have h : (clearAndPut db.clients cs).1.autoInc = db.clients.autoInc := clearAndPut_autoInc
    rw [h1] at h
    exact h.trans wf.autoc
  cases e1 with
  | some e1 => exact ⟨w1, wf.wfco, wf.wfi, wf.wft, a1, wf.autoi, wf.autot⟩
  | none =>
    rcases h2 : clearAndPut db.company cos with ⟨c2, e2⟩
    have w2 : StoreWF c2 := by
      have h : StoreWF (clearAndPut db.company cos).1 := storeWF_clearAndPut wf.wfco
      rwa [h2] at h
    cases e2 with
    | some e2 => exact ⟨w1, w2, wf.wfi, wf.wft, a1, wf.autoi, wf.autot⟩
    | none =>
      rcases h3 : clearAndPut db.invoices is with ⟨c3, e3⟩
      have w3 : StoreWF c3 := by
        have h : StoreWF (clearAndPut db.invoices is).1 := storeWF_clearAndPut wf.wfi
        rwa [h3] at h
      have a3 : c3.autoInc = true := by
        have h : (clearAndPut db.invoices is).1.autoInc = db.invoices.autoInc :=
          clearAndPut_autoInc
        rw [h3] at h
        exact h.trans wf.autoi
      cases e3 with
      | some e3 => exact ⟨w1, w2, w3, wf.wft, a1, a3, wf.autot⟩
      | none =>
        rcases h4 : clearAndPut db.timesheets tss with ⟨c4, e4⟩
        have w4 : StoreWF c4 := by
          have h : StoreWF (clearAndPut db.timesheets tss).1 := storeWF_clearAndPut wf.wft
          rwa [h4] at h
        have a4 : c4.autoInc = true := by
          have h : (clearAndPut db.timesheets tss).1.autoInc = db.timesheets.autoInc :=
            clearAndPut_autoInc
          rw [h4] at h
          exact h.trans wf.autot
        cases e4 with
        | some e4 => exact ⟨w1, w2, w3, w4, a1, a3, a4⟩
        | none => exact ⟨w1, w2, w3, w4, a1, a3, a4⟩

/-- When no put throws, the staging pass replaces the four stores. -/
theorem stageStores_ok {db : DB} {cs cos is tss : List Json} {c1 c2 c3 c4 : ObjStore}
    (h1 : clearAndPut db.clients cs = (c1, none))
    (h2 : clearAndPut db.company cos = (c2, none))
    (h3 : clearAndPut db.invoices is = (c3, none))
    (h4 : clearAndPut db.timesheets tss = (c4, none)) :
    stageStores db cs cos is tss = (⟨c1, c2, c3, c4⟩, none) := by
  rw [stageStores, h1, h2, h3, h4]

/-- The staged company store is either untouched (the throw came in the
clients stage) or the clear-and-put result for the snapshot's company
array. -/
theorem stageStores_company_cases (db : DB) (cs cos is tss : List Json) :
    (stageStores db cs cos is tss).1.company = db.company ∨
    (stageStores db cs cos is tss).1.company = (clearAndPut db.company cos).1 := by
  rw [stageStores]
  rcases h1 : clearAndPut db.clients cs with ⟨c1, e1⟩
  cases e1 with
  | some e1 => exact Or.inl rfl
  | none =>
    rcases h2 : clearAndPut db.company cos with ⟨c2, e2⟩
    cases e2 with
    | some e2 => exact Or.inr rfl
    | none =>
      rcases h3 : clearAndPut db.invoices is with ⟨c3, e3⟩
      cases e3 with
      | some e3 => exact Or.inr rfl
      | none =>
        rcases h4 : clearAndPut db.timesheets tss with ⟨c4, e4⟩
        cases e4 with
        | some e4 => exact Or.inr rfl
        | none => exact Or.inr rfl

/-- A successful import implies validation passed, the commit succeeded,
and the counts are the three snapshot-array lengths. -/
theorem importAll_ok {j : Obj} {db : DB} {b : Bool} {c : ImportCounts}
    (h : (importAll j db b).2 = .ok c) :
    firstBadKey j = none ∧ b = true ∧
    c = ⟨(getArrayField j "clients").length, (getArrayField j "invoices").length,
         (getArrayField j "timesheets").length⟩ := by
  rcases hfb : firstBadKey j with _ | k
  · rw [importAll_run j db b hfb] at h
    rcases hst : stageStores db (getArrayField j "clients") (getArrayField j "company")
        (getArrayField j "invoices") (getArrayField j "timesheets") with ⟨db', eo⟩
    rw [hst] at h
    cases eo with
    | some e => exact absurd h (by simp)
    | none =>
      cases b with
      | false => exact absurd h (by simp)
      | true => exact ⟨rfl, rfl, (Except.ok.inj h).symm⟩
  · rw [importAll_bad db b hfb] at h
    exact absurd h (by simp)

/-- A well-formed database stays well-formed through `importAll`,
committed partial replacements included. -/
theorem dbWF_importAll {db : DB} (wf : DBWF db) (j : Obj) (b : Bool) :
    DBWF (importAll j db b).1 := by
  rcases hfb : firstBadKey j with _ | k
  · rw [importAll_run j db b hfb]
    have hswf := stageStores_wf wf (getArrayField j "clients") (getArrayField j "company")
      (getArrayField j "invoices") (getArrayField j "timesheets")
    rcases hst : stageStores db (getArrayField j "clients") (getArrayField j "company")
        (getArrayField j "invoices") (getArrayField j "timesheets") with ⟨db', eo⟩
    rw [hst] at hswf
    cases eo with
    | some e =>
      cases b with
      | true => exact hswf
      | false => exact wf
    | none =>
      cases b with
      | true => exact hswf
      | false => exact wf
  · rw [importAll_bad db b hfb]
    exact wf

/-- Every public operation preserves database well-formedness. -/
theorem dbWF_applyOp {db : DB} (wf : DBWF db) (op : DBOp) : DBWF (applyOp db op) := by
  cases op with
  | cput v =>
    simp only [applyOp, clientsPut]
    rcases hp : storePut db.clients v with e | p
    · exact wf
    · obtain ⟨k, s'⟩ := p
      exact ⟨storeWF_put wf.wfc hp, wf.wfco, wf.wfi, wf.wft,
        (storePut_autoInc hp).trans wf.autoc, wf.autoi, wf.autot⟩
  | cdel k =>
    simp only [applyOp, clientsDelete]
    rcases hn : jsToNumber k with _ | n
    · exact wf
    · exact ⟨storeWF_delete wf.wfc _, wf.wfco, wf.wfi, wf.wft, wf.autoc, wf.autoi, wf.autot⟩
  | iput v =>
    simp only [applyOp, invoicesSave]
    rcases hp : storePut db.invoices v with e | p
    · exact wf
    · obtain ⟨k, s'⟩ := p
      exact ⟨wf.wfc, wf.wfco, storeWF_put wf.wfi hp, wf.wft,
        wf.autoc, (storePut_autoInc hp).trans wf.autoi, wf.autot⟩
  | idel k =>
    simp only [applyOp, invoicesDelete]
    rcases hn : jsToNumber k with _ | n
    · exact wf
    · exact ⟨wf.wfc, wf.wfco, storeWF_delete wf.wfi _, wf.wft, wf.autoc, wf.autoi, wf.autot⟩
  | tput v =>
    simp only [applyOp, timesheetsSave]
    rcases hp : storePut db.timesheets v with e | p
    · exact wf
    · obtain ⟨k, s'⟩ := p
      exact ⟨wf.wfc, wf.wfco, wf.wfi, storeWF_put wf.wft hp,
        wf.autoc, wf.autoi, (storePut_autoInc hp).trans wf.autot⟩
  | tdel k =>
    simp only [applyOp, timesheetsDelete]
    rcases hn : jsToNumber k with _ | n
    · exact wf
    · exact ⟨wf.wfc, wf.wfco, wf.wfi, storeWF_delete wf.wft _, wf.autoc, wf.autoi, wf.autot⟩
  | csave f =>
    simp only [applyOp, companySave]
    rcases hp : storePut db.company (.jobj (setField f "id" (.jstr "default"))) with e | p
    · exact wf
    · obtain ⟨k, s'⟩ := p
      exact ⟨wf.wfc, storeWF_put wf.wfco hp, wf.wfi, wf.wft, wf.autoc, wf.autoi, wf.autot⟩
  | imp j b => exact dbWF_importAll wf j b

/-- The fresh database is well-formed. -/
theorem dbWF_init : DBWF initDB :=
  ⟨storeWF_init true, storeWF_init false, storeWF_init true, storeWF_init true, rfl, rfl, rfl⟩

/-- Every reachable database state is well-formed. -/
theorem reach_wf {db : DB} (h : Reach db) : DBWF db := by
  obtain ⟨ops, rfl⟩ := h
  suffices h2 : ∀ db0, DBWF db0 → DBWF (ops.foldl applyOp db0) from h2 initDB dbWF_init
  induction ops with
  | nil => exact fun db0 wf0 => wf0
  | cons op t ih => exact fun db0 wf0 => ih (applyOp db0 op) (dbWF_applyOp wf0 op)

/-- A single-store operation never decreases the key generator. -/
theorem stepStore_keyGen_le (s : ObjStore) (op : SOp) :
    s.keyGen ≤ (stepStore s op).keyGen := by
  cases op with
  | sput v =>
    simp only [stepStore]
    rcases hp : storePut s v with e | p
    · exact Nat.le_refl _
    · obtain ⟨k, s'⟩ := p
      exact storePut_keyGen_le hp
  | sdel k => exact Nat.le_refl _

/-- What an auto-assignment means: the operation consumed the current
generator value and moved the generator past it. -/
theorem autoKey_some {s : ObjStore} {op : SOp} {n : Nat} (h : autoKey s op = some n) :
    n = s.keyGen ∧ (stepStore s op).keyGen = s.keyGen + 1 := by
  cases op with
  | sdel k => simp [autoKey] at h
  | sput v =>
    cases v with
    | jobj o =>
      simp only [autoKey] at h
      split at h
      · next hf =>
        split at h
        · next ha =>
          cases h
          have hput : storePut s (.jobj o) =
              .ok (.num s.keyGen,
                ⟨insertAssoc s.data (.num s.keyGen) (setField o "id" (.jnum s.keyGen)),
                 s.keyGen + 1, s.autoInc⟩) := by
            simp only [storePut, hf]
            rw [if_pos ha]
          refine ⟨rfl, ?_⟩
          simp only [stepStore, hput]
        · exact absurd h (by simp)
      · exact absurd h (by simp)
    | jnull => simp [autoKey] at h
    | jbool b => simp [autoKey] at h
    | jnum m => simp [autoKey] at h
    | jstr st => simp [autoKey] at h
    | jarr l => simp [autoKey] at h

/-- Every identifier assigned later in a trace is at least the current
generator value. -/
theorem assignedIds_lb {ops : List SOp} {s : ObjStore} {x : Nat}
    (hx : x ∈ assignedIds s ops) : s.keyGen ≤ x := by
  induction ops generalizing s with
  | nil => simp [assignedIds] at hx
  | cons op t ih =>
    rw [assignedIds] at hx
    rcases List.mem_append.mp hx with h | h
    · rcases ha : autoKey s op with _ | n
      · rw [ha] at h
        simp at h
      · rw [ha] at h
        simp only [Option.toList_some, List.mem_singleton] at h
        subst h
        exact Nat.le_of_eq (autoKey_some ha).1.symm
    · exact Nat.le_trans (stepStore_keyGen_le s op) (ih h)

/-- No `InvalidSnapshot` error can arise once validation has passed. -/
theorem importAll_no_invalid {j : Obj} {db : DB} {b : Bool} {k : String}
    (h : firstBadKey j = none) :
    (importAll j db b).2 ≠ .error (.invalidSnapshot k) := by
  rw [importAll_run j db b h]
  rcases hst : stageStores db (getArrayField j "clients") (getArrayField j "company")
      (getArrayField j "invoices") (getArrayField j "timesheets") with ⟨db', eo⟩
  cases eo with
  | some e =>
    intro hc
    have he : e = .invalidSnapshot k := Except.error.inj hc
    have hd : e = .dataError := stageStores_error (by rw [hst])
    rw [hd] at he
    exact DBError.noConfusion he
  | none =>
    cases b with
    | true => exact fun hc => Except.noConfusion hc
    | false => exact fun hc => DBError.noConfusion (Except.error.inj hc)

/-- C3: `import` rejects a candidate snapshot with an InvalidSnapshot
error if and only if one of the four required collection keys (clients,
company, invoices, timesheets) is missing or bound to a non-array value;
the error names the first offending key in that (source) order, and when
it is raised the result state is the untouched input database. -/
theorem importAll_invalid_iff (j : Obj) (db : DB) (b : Bool) :
    ((∃ k ∈ requiredKeys, isArrayField j k = false) ↔
      ∃ k, (importAll j db b).2 = .error (.invalidSnapshot k)) ∧
    (∀ k, firstBadKey j = some k →
      importAll j db b = (db, .error (.invalidSnapshot k))) := by
  constructor
  · constructor
    · rintro ⟨k, hk, hbad⟩
      rcases hopt : firstBadKey j with _ | k0
      · exfalso
        have hopt' : requiredKeys.find? (fun k => !isArrayField j k) = none := hopt
        rw [List.find?_eq_none] at hopt'
        exact (hopt' k hk) (by simp [hbad])
      · exact ⟨k0, by rw [importAll_bad db b hopt]⟩
    · rintro ⟨k, hk⟩
      rcases hopt : firstBadKey j with _ | k0
      · exact absurd hk (importAll_no_invalid hopt)
      · have hopt' : requiredKeys.find? (fun k => !isArrayField j k) = some k0 := hopt
        have hmem := List.find?_mem hopt'
        have hbad := List.find?_some hopt'
        exact ⟨k0, hmem, by simpa using hbad⟩
  · intro k hk
    exact importAll_bad db b hk

/-- Witness for C3 at the spec's own example: the malformed snapshot with
`invoices` bound to a string is rejected naming `invoices`, with no state
change. -/
theorem importAll_invalid_iff_witness :
    importAll snapBadInvoices initDB true = (initDB, .error (.invalidSnapshot "invoices")) :=
  (importAll_invalid_iff snapBadInvoices initDB true).2 "invoices" rfl

/-- C2 counterexample: the snapshot `snapBadCompanyRec` passes validation
(all four values are arrays), but its company record `{}` cannot be
keyed, so `store.put` throws DataError inside the transaction and
the import fails — yet the `clients.clear()` and `company.clear()` already
queued commit with the transaction, and the two pre-existing clients are
lost.  A failed import has modified collections: the claim's "no
collection is modified; there is no partial-success outcome" is false of
the program. -/
theorem importAll_rollback_cex :
    firstBadKey snapBadCompanyRec = none ∧
    (importAll snapBadCompanyRec dbTwoClients true).2 = .error .dataError ∧
    dbTwoClients.clients.data.length = 2 ∧
    (importAll snapBadCompanyRec dbTwoClients true).1.clients.data.length = 0 :=
  ⟨rfl, rfl, rfl, rfl⟩

/-- C2 (amended): after validation passes, a failed import leaves every
collection unchanged when the failure is the transaction's own commit
failing (storage error, quota exceeded, abort — the `commitOk` oracle
false).  But when the failure is a synchronous DataError thrown by a
`put` inside the transaction and the commit succeeds, the import rejects
while the clears and puts queued before the throw still commit: the
resulting state is exactly the staged prefix, a partial outcome rather
than full preservation. -/
theorem importAll_failure_states (j : Obj) (db : DB) (b : Bool) (e : DBError)
    (hval : firstBadKey j = none)
    (herr : (importAll j db b).2 = .error e) :
    (b = false → (importAll j db b).1 = db) ∧
    (b = true → e = .dataError ∧
      (importAll j db b).1 = (stageStores db (getArrayField j "clients")
        (getArrayField j "company") (getArrayField j "invoices")
        (getArrayField j "timesheets")).1) := by
  rw [importAll_run j db b hval] at herr ⊢
  rcases hst : stageStores db (getArrayField j "clients") (getArrayField j "company")
      (getArrayField j "invoices") (getArrayField j "timesheets") with ⟨db', eo⟩
  rw [hst] at herr
  cases eo with
  | some e0 =>
    have he : e0 = e := Except.error.inj herr
    constructor
    · intro hb
      subst hb
      rfl
    · intro hb
      subst hb
      refine ⟨?_, rfl⟩
      rw [← he]
      exact stageStores_error (by rw [hst])
  | none =>
    cases b with
    | false =>
      exact ⟨fun _ => rfl, fun hb => absurd hb (by simp)⟩
    | true => exact absurd herr (by simp)

/-- Witness for the amended C2 at `snapBadCompanyRec` over `dbTwoClients`:
a commit failure preserves the state, and a successful commit of the
failed import leaves exactly the staged partial state. -/
theorem importAll_failure_states_witness :
    (importAll snapBadCompanyRec dbTwoClients false).1 = dbTwoClients ∧
    (importAll snapBadCompanyRec dbTwoClients true).1 =
      (stageStores dbTwoClients (getArrayField snapBadCompanyRec "clients")
        (getArrayField snapBadCompanyRec "company")
        (getArrayField snapBadCompanyRec "invoices")
        (getArrayField snapBadCompanyRec "timesheets")).1 :=
  ⟨(importAll_failure_states snapBadCompanyRec dbTwoClients false .dataError rfl rfl).1 rfl,
   ((importAll_failure_states snapBadCompanyRec dbTwoClients true .dataError rfl rfl).2 rfl).2⟩

/-- C5: along any sequence of puts (with or without explicit identifiers)
and deletes against one object store, the identifiers handed out by the
key generator to records carrying no identifier are strictly increasing —
hence pairwise distinct, and each later one exceeds every identifier
assigned before it, deletions notwithstanding. -/
theorem assignedIds_strictMono (s : ObjStore) (ops : List SOp) :
    (assignedIds s ops).Pairwise (· < ·) ∧ (assignedIds s ops).Nodup := by
  have hp : ∀ t s0, (assignedIds s0 t).Pairwise (· < ·) := by
    intro t
    induction t with
    | nil => intro s0; simp [assignedIds]
    | cons op t2 ih =>
      intro s0
      rw [assignedIds]
      rcases ha : autoKey s0 op with _ | n
      · simpa using ih (stepStore s0 op)
      · simp only [Option.toList_some, List.singleton_append, List.pairwise_cons]
        refine ⟨?_, ih (stepStore s0 op)⟩
        intro x hx
        obtain ⟨hn, hstep⟩ := autoKey_some ha
        have h1 : n < (stepStore s0 op).keyGen := by
          rw [hstep, hn]
          exact Nat.lt_succ_self _
        exact Nat.lt_of_lt_of_le h1 (assignedIds_lb hx)
  exact ⟨hp ops s, (hp ops s).imp Nat.ne_of_lt⟩

/-- C7: `company.get()` on the fresh store returns the documented default
object (never absence), and `company.save(settings)` always writes
`{...settings, id:'default'}` under the fixed key `'default'` — the whole
stored value is the input with its `id` forced to `'default'`, with no
field-level merge with the previous value, whatever identifier the input
carried. -/
theorem company_get_save (db : DB) (f : Obj) :
    companyGet initDB = defaultCompany ∧
    ∃ db', companySave db f = .ok (.str "default", db') ∧
      companyGet db' = setField f "id" (.jstr "default") ∧
      lookupField (companyGet db') "id" = some (.jstr "default") := by
  have hid : lookupField (setField f "id" (.jstr "default")) "id" =
      some (valOfKey (.str "default")) := lookupField_setField f "id" (.jstr "default")
  have hsave := storePut_explicit db.company hid
  refine ⟨rfl,
    { db with company :=
        ⟨insertAssoc db.company.data (.str "default") (setField f "id" (.jstr "default")),
         bumpKey db.company.autoInc db.company.keyGen (.str "default"), db.company.autoInc⟩ },
    ?_, ?_, ?_⟩
  · rw [companySave, hsave]
    rfl
  · show (findRec (insertAssoc db.company.data (.str "default")
        (setField f "id" (.jstr "default"))) (.str "default")).getD defaultCompany = _
    rw [findRec_insertAssoc_self]
    rfl
  · show lookupField ((findRec (insertAssoc db.company.data (.str "default")
        (setField f "id" (.jstr "default"))) (.str "default")).getD defaultCompany) "id" = _
    rw [findRec_insertAssoc_self]
    exact lookupField_setField f "id" (.jstr "default")

/-- C9: putting the same record with the same explicit valid identifier
twice is the same as once — the second `put` leaves the store (records and
key generator) unchanged, and with duplicate-free keys the records listed
under that identifier are exactly the one record. -/
theorem storePut_upsert_idem (s : ObjStore) (o : Obj) (idv : Json) (k : Key)
    (hid : lookupField o "id" = some idv) (hk : keyOfVal idv = some k)
    (hnd : (s.data.map Prod.fst).Nodup) :
    ∃ s1, storePut s (.jobj o) = .ok (k, s1) ∧
      storePut s1 (.jobj o) = .ok (k, s1) ∧
      s1.data.filter (fun p => decide (p.1 = k)) = [(k, o)] := by
  have hid' : lookupField o "id" = some (valOfKey k) := by
    rw [hid, valOfKey_keyOfVal hk]
  refine ⟨⟨insertAssoc s.data k o, bumpKey s.autoInc s.keyGen k, s.autoInc⟩,
    storePut_explicit s hid', ?_, filter_insertAssoc k o hnd⟩
  have h2 := storePut_explicit
    (s := ⟨insertAssoc s.data k o, bumpKey s.autoInc s.keyGen k, s.autoInc⟩) hid'
  rw [h2]
  have hd : insertAssoc (insertAssoc s.data k o) k o = insertAssoc s.data k o :=
    insertAssoc_idem _ _ _
  have hg : bumpKey s.autoInc (bumpKey s.autoInc s.keyGen k) k = bumpKey s.autoInc s.keyGen k := by
    cases k with
    | num n =>
      by_cases ha : s.autoInc = true
      · simp only [bumpKey, if_pos ha]
        rw [Nat.max_assoc, Nat.max_self]
      · simp only [bumpKey, if_neg ha]
    | str st => rfl
  dsimp only
  rw [hd, hg]

/-- Witness for C9 at a concrete store and record. -/
theorem storePut_upsert_idem_witness :
    ∃ s1, storePut (initStore true) (.jobj [("id", .jnum 5), ("name", .jstr "x")]) =
        .ok (.num 5, s1) ∧
      storePut s1 (.jobj [("id", .jnum 5), ("name", .jstr "x")]) = .ok (.num 5, s1) ∧
      s1.data.filter (fun p => decide (p.1 = .num 5)) =
        [(.num 5, [("id", .jnum 5), ("name", .jstr "x")])] :=
  storePut_upsert_idem (initStore true) [("id", .jnum 5), ("name", .jstr "x")]
    (.jnum 5) (.num 5) rfl rfl (by decide)

/-- C10 counterexample input: importing `snapMixedIds` stores one client
under the number 1 and another under the string "1"; `clients.get("1")`
then returns the string-keyed record, not absence, even though a client
with numeric identifier 1 whose string form is "1" is stored. -/
theorem clients_get_string_cex :
    (Key.num 1, [("id", Json.jnum 1)]) ∈ (importAll snapMixedIds initDB true).1.clients.data ∧
    jsToNumber (.str "1") = some 1 ∧
    clientsGet (importAll snapMixedIds initDB true).1 (.str "1") = some [("id", .jstr "1")] :=
  ⟨List.mem_cons_self _ _, rfl, rfl⟩

/-- C10 (amended): provided no client record is stored under the string
key itself, the clients interface passes `get`'s identifier through
unchanged — a string lookup misses the numerically keyed record — while
`delete` first coerces its identifier with `Number`, so the same string
removes the record with the corresponding numeric identifier. -/
theorem clients_get_delete_coercion (db : DB) (n : Nat) (o : Obj) (s : String)
    (hnum : jsToNumber (.str s) = some n)
    (hmem : (Key.num n, o) ∈ db.clients.data)
    (habs : findRec db.clients.data (.str s) = none) :
    clientsGet db (.str s) = none ∧
    ∃ db', clientsDelete db (.str s) = .ok db' ∧
      db'.clients.data = db.clients.data.filter (fun p => decide (p.1 ≠ Key.num n)) ∧
      storeGet db'.clients (.num n) = none := by
  refine ⟨habs, { db with clients := storeDelete db.clients (.num n) }, ?_, rfl, ?_⟩
  · rw [clientsDelete, hnum]
  · exact findRec_filter_ne _ _

/-- Witness for the amended C10 at a concrete one-client database. -/
theorem clients_get_delete_coercion_witness :
    jsToNumber (.str "1") = some 1 ∧
    (Key.num 1, [("id", Json.jnum 1), ("name", Json.jstr "X")]) ∈ dbOneClient.clients.data ∧
    findRec dbOneClient.clients.data (.str "1") = none ∧
    clientsGet dbOneClient (.str "1") = none ∧
    ∃ db', clientsDelete dbOneClient (.str "1") = .ok db' ∧
      storeGet db'.clients (.num 1) = none := by
  have h := clients_get_delete_coercion dbOneClient 1
    [("id", Json.jnum 1), ("name", Json.jstr "X")] "1" rfl (List.mem_cons_self _ _) rfl
  exact ⟨rfl, List.mem_cons_self _ _, rfl, h.1,
    h.2.elim fun db' hh => ⟨db', hh.1, hh.2.2⟩⟩

/-- C6 counterexample: importing a well-formed snapshot whose company
array holds two records under distinct identifiers succeeds and leaves
the company collection with two records, breaking the 0-or-1 invariant. -/
theorem company_singleton_cex :
    (importAll snapTwoCompany initDB true).2 = .ok ⟨0, 0, 0⟩ ∧
    (importAll snapTwoCompany initDB true).1.company.data.length = 2 :=
  ⟨rfl, rfl⟩

/-- C6 (amended): the company collection holds at most one record, stored
under the fixed key `'default'`, and every public operation preserves
this, provided any imported snapshot's company array holds at most one
record keyed `'default'` (as every snapshot exported from such a state
does).  In particular the collection's size stays at most 1. -/
theorem company_singleton_preserved (db : DB) (op : DBOp)
    (hdb : CompanySingleton db) (hop : companySnapOk op) :
    CompanySingleton (applyOp db op) ∧ (applyOp db op).company.data.length ≤ 1 := by
  have hlen : ∀ db2 : DB, CompanySingleton db2 → db2.company.data.length ≤ 1 := by
    rintro db2 (h | ⟨o, h⟩) <;> simp [h]
  have main : CompanySingleton (applyOp db op) := by
    cases op with
    | cput v =>
      simp only [applyOp, clientsPut]
      rcases hp : storePut db.clients v with e | p
      · exact hdb
      · exact hdb
    | cdel k =>
      simp only [applyOp, clientsDelete]
      rcases hn : jsToNumber k with _ | n
      · exact hdb
      · exact hdb
    | iput v =>
      simp only [applyOp, invoicesSave]
      rcases hp : storePut db.invoices v with e | p
      · exact hdb
      · exact hdb
    | idel k =>
      simp only [applyOp, invoicesDelete]
      rcases hn : jsToNumber k with _ | n
      · exact hdb
      · exact hdb
    | tput v =>
      simp only [applyOp, timesheetsSave]
      rcases hp : storePut db.timesheets v with e | p
      · exact hdb
      · exact hdb
    | tdel k =>
      simp only [applyOp, timesheetsDelete]
      rcases hn : jsToNumber k with _ | n
      · exact hdb
      · exact hdb
    | csave f =>
      simp only [applyOp, companySave]
      have hput := storePut_explicit (k := .str "default") db.company
        (lookupField_setField f "id" (.jstr "default"))
      rcases hp : storePut db.company (.jobj (setField f "id" (.jstr "default"))) with e | p
      · exact hdb
      · rw [hput] at hp
        obtain rfl := Except.ok.inj hp
        rcases hdb with h0 | ⟨o0, h0⟩
        · exact Or.inr ⟨setField f "id" (.jstr "default"), by rw [h0]; rfl⟩
        · exact Or.inr ⟨setField f "id" (.jstr "default"), by rw [h0]; rfl⟩
    | imp j b =>
      simp only [applyOp]
      have hsmall : ∀ l, lookupField j "company" = some (.jarr l) →
          l = [] ∨ ∃ o, l = [Json.jobj o] ∧ lookupField o "id" = some (.jstr "default") := hop
      have hco : (clearAndPut db.company (getArrayField j "company")).1.data = [] ∨
          ∃ o, (clearAndPut db.company (getArrayField j "company")).1.data =
            [(Key.str "default", o)] := by
        rcases hlk : lookupField j "company" with _ | v
        · have hga : getArrayField j "company" = [] := by rw [getArrayField, hlk]
          rw [hga]
          exact Or.inl rfl
        · cases v with
          | jarr l =>
            rcases hsmall l hlk with hl | ⟨o, hl, hid⟩
            · subst hl
              have hga : getArrayField j "company" = [] := by rw [getArrayField, hlk]
              rw [hga]
              exact Or.inl rfl
            · subst hl
              have hga : getArrayField j "company" = [Json.jobj o] := by
                rw [getArrayField, hlk]
              rw [hga]
              have hid' : lookupField o "id" = some (valOfKey (.str "default")) := hid
              have hcp : clearAndPut db.company [Json.jobj o] =
                  (⟨[(Key.str "default", o)],
                    bumpKey db.company.autoInc db.company.keyGen (.str "default"),
                    db.company.autoInc⟩, none) := by
                rw [clearAndPut, putList, storePut_explicit (storeClear db.company) hid']
                rfl
              rw [hcp]
              exact Or.inr ⟨o, rfl⟩
          | jnull =>
            have hga : getArrayField j "company" = [] := by rw [getArrayField, hlk]
            rw [hga]
            exact Or.inl rfl
          | jbool b2 =>
            have hga : getArrayField j "company" = [] := by rw [getArrayField, hlk]
            rw [hga]
            exact Or.inl rfl
          | jnum n2 =>
            have hga : getArrayField j "company" = [] := by rw [getArrayField, hlk]
            rw [hga]
            exact Or.inl rfl
          | jstr s2 =>
            have hga : getArrayField j "company" = [] := by rw [getArrayField, hlk]
            rw [hga]
            exact Or.inl rfl
          | jobj o2 =>
            have hga : getArrayField j "company" = [] := by rw [getArrayField, hlk]
            rw [hga]
            exact Or.inl rfl
      rcases hfb : firstBadKey j with _ | k
      · rw [importAll_run j db b hfb]
        have hsc := stageStores_company_cases db (getArrayField j "clients")
          (getArrayField j "company") (getArrayField j "invoices")
          (getArrayField j "timesheets")
        rcases hst : stageStores db (getArrayField j "clients") (getArrayField j "company")
            (getArrayField j "invoices") (getArrayField j "timesheets") with ⟨db', eo⟩
        rw [hst] at hsc
        have hdb' : CompanySingleton db' := by
          rcases hsc with hsc | hsc
          · have hceq : db'.company = db.company := hsc
            rcases hdb with h0 | ⟨o0, h0⟩
            · exact Or.inl (by rw [hceq, h0])
            · exact Or.inr ⟨o0, by rw [hceq, h0]⟩
          · have hceq : db'.company = (clearAndPut db.company (getArrayField j "company")).1 :=
              hsc
            rcases hco with h0 | ⟨o0, h0⟩
            · exact Or.inl (by rw [hceq]; exact h0)
            · exact Or.inr ⟨o0, by rw [hceq]; exact h0⟩
        cases eo with
        | some e =>
          cases b with
          | true => exact hdb'
          | false => exact hdb
        | none =>
          cases b with
          | true => exact hdb'
          | false => exact hdb
      · rw [importAll_bad db b hfb]
        exact hdb
  exact ⟨main, hlen _ main⟩

/-- Witness for the amended C6: importing a one-record company snapshot
into the fresh database keeps the singleton invariant. -/
theorem company_singleton_preserved_witness :
    CompanySingleton (applyOp initDB (.imp snapOneCompany true)) ∧
    (applyOp initDB (.imp snapOneCompany true)).company.data.length ≤ 1 :=
  company_singleton_preserved initDB (.imp snapOneCompany true) (Or.inl rfl)
    (by
      intro l hl
      have hl' : some (Json.jarr [Json.jobj [("id", Json.jstr "default")]]) =
          some (Json.jarr l) := hl
      obtain h2 := Option.some.inj hl'
      obtain h3 := Json.jarr.inj h2
      exact Or.inr ⟨[("id", Json.jstr "default")], h3.symm ▸ rfl, rfl⟩)

/-- A snapshot whose four required keys are bound to arrays passes
validation. -/
theorem firstBadKey_none_of_arrays {j : Obj} {cs cos is tss : List Json}
    (hc : lookupField j "clients" = some (.jarr cs))
    (hco : lookupField j "company" = some (.jarr cos))
    (hi : lookupField j "invoices" = some (.jarr is))
    (ht : lookupField j "timesheets" = some (.jarr tss)) :
    firstBadKey j = none := by
  have h1 : isArrayField j "clients" = true := by rw [isArrayField, hc]
  have h2 : isArrayField j "company" = true := by rw [isArrayField, hco]
  have h3 : isArrayField j "invoices" = true := by rw [isArrayField, hi]
  have h4 : isArrayField j "timesheets" = true := by rw [isArrayField, ht]
  rw [firstBadKey, requiredKeys]
  simp [List.find?, h1, h2, h3, h4]

/-- Decomposition of one record that `recPair` accepts. -/
theorem recPair_some {r : Json} {p : Key × Obj} (h : recPair r = some p) :
    r = .jobj p.2 ∧ lookupField p.2 "id" = some (valOfKey p.1) := by
  cases r with
  | jobj o =>
    simp only [recPair] at h
    split at h
    · next idv heq =>
      rcases hk : keyOfVal idv with _ | k <;> rw [hk] at h
      · exact Option.noConfusion h
      · have h' : some (k, o) = some p := h
        obtain rfl := Option.some.inj h'
        exact ⟨rfl, by rw [heq, valOfKey_keyOfVal hk]⟩
    · exact Option.noConfusion h
  | jnull => exact Option.noConfusion h
  | jbool b => exact Option.noConfusion h
  | jnum n => exact Option.noConfusion h
  | jstr s => exact Option.noConfusion h
  | jarr l => exact Option.noConfusion h

/-- Decomposition of a record array that `recPairs` accepts. -/
theorem recPairs_some {l : List Json} {ps : List (Key × Obj)} (h : recPairs l = some ps) :
    l = ps.map (fun p => Json.jobj p.2) ∧
    (∀ p ∈ ps, lookupField p.2 "id" = some (valOfKey p.1)) ∧
    l.length = ps.length := by
  induction l generalizing ps with
  | nil =>
    have h' : (some [] : Option (List (Key × Obj))) = some ps := h
    obtain rfl := Option.some.inj h'
    exact ⟨rfl, by simp, rfl⟩
  | cons r t ih =>
    rw [recPairs, List.mapM_cons] at h
    rcases hr : recPair r with _ | p <;> rw [hr] at h
    · simp at h
    · rcases ht2 : t.mapM recPair with _ | ps2 <;> rw [ht2] at h
      · simp at h
      · simp only [Option.pure_def, Option.bind_some, Option.bind_none] at h
        obtain rfl := Option.some.inj h
        obtain ⟨hro, hrid⟩ := recPair_some hr
        obtain ⟨hteq, htid, htlen⟩ := ih (show recPairs t = some ps2 from ht2)
        refine ⟨?_, ?_, ?_⟩
        · rw [List.map_cons, ← hro, ← hteq]
        · intro q hq
          rcases List.mem_cons.mp hq with hq | hq
          · rw [hq]
            exact hrid
          · exact htid q hq
        · simp [htlen]

/-- C1 counterexample: importing a well-formed snapshot whose client
record carries no identifier succeeds, but the stored contents are not
the snapshot's records verbatim — the key generator injected `id: 1`. -/
theorem import_verbatim_cex :
    (∃ c, (importAll snapNoId initDB true).2 = .ok c) ∧
    clientsGetAll (importAll snapNoId initDB true).1 =
      [[("name", Json.jstr "A"), ("id", Json.jnum 1)]] ∧
    [[("name", Json.jstr "A"), ("id", Json.jnum 1)]] ≠ [[("name", Json.jstr "A")]] :=
  ⟨⟨⟨1, 0, 0⟩, rfl⟩, rfl, by simp⟩

/-- C1 (amended): for a well-formed snapshot in which every record is an
object carrying a valid identifier, pairwise distinct within each
collection's array, a successful import leaves each collection holding
exactly the snapshot's records under exactly those identifiers, in array
order, regardless of the four collections' pre-import contents. -/
theorem import_restores_verbatim (j : Obj) (db : DB)
    (cs cos is tss : List Json) (pc pco pinv pt : List (Key × Obj))
    (hc : lookupField j "clients" = some (.jarr cs))
    (hco : lookupField j "company" = some (.jarr cos))
    (hi : lookupField j "invoices" = some (.jarr is))
    (ht : lookupField j "timesheets" = some (.jarr tss))
    (hpc : recPairs cs = some pc) (hpco : recPairs cos = some pco)
    (hpi : recPairs is = some pinv) (hpt : recPairs tss = some pt)
    (ndc : (pc.map Prod.fst).Nodup) (ndco : (pco.map Prod.fst).Nodup)
    (ndi : (pinv.map Prod.fst).Nodup) (ndt : (pt.map Prod.fst).Nodup) :
    (importAll j db true).1.clients.data = pc ∧
    (importAll j db true).1.company.data = pco ∧
    (importAll j db true).1.invoices.data = pinv ∧
    (importAll j db true).1.timesheets.data = pt ∧
    ∃ c, (importAll j db true).2 = .ok c := by
  have hnone := firstBadKey_none_of_arrays hc hco hi ht
  have e1 : clearAndPut db.clients (getArrayField j "clients") =
      (⟨pc, bumpGen db.clients.autoInc db.clients.keyGen pc, db.clients.autoInc⟩, none) := by
    have hga : getArrayField j "clients" = cs := by rw [getArrayField, hc]
    rw [hga, (recPairs_some hpc).1]
    exact clearAndPut_explicit _ _ (recPairs_some hpc).2.1 ndc
  have e2 : clearAndPut db.company (getArrayField j "company") =
      (⟨pco, bumpGen db.company.autoInc db.company.keyGen pco, db.company.autoInc⟩, none) := by
    have hga : getArrayField j "company" = cos := by rw [getArrayField, hco]
    rw [hga, (recPairs_some hpco).1]
    exact clearAndPut_explicit _ _ (recPairs_some hpco).2.1 ndco
  have e3 : clearAndPut db.invoices (getArrayField j "invoices") =
      (⟨pinv, bumpGen db.invoices.autoInc db.invoices.keyGen pinv, db.invoices.autoInc⟩,
       none) := by
    have hga : getArrayField j "invoices" = is := by rw [getArrayField, hi]
    rw [hga, (recPairs_some hpi).1]
    exact clearAndPut_explicit _ _ (recPairs_some hpi).2.1 ndi
  have e4 : clearAndPut db.timesheets (getArrayField j "timesheets") =
      (⟨pt, bumpGen db.timesheets.autoInc db.timesheets.keyGen pt, db.timesheets.autoInc⟩,
       none) := by
    have hga : getArrayField j "timesheets" = tss := by rw [getArrayField, ht]
    rw [hga, (recPairs_some hpt).1]
    exact clearAndPut_explicit _ _ (recPairs_some hpt).2.1 ndt
  rw [importAll_run j db true hnone, stageStores_ok e1 e2 e3 e4]
  exact ⟨rfl, rfl, rfl, rfl, ⟨_, rfl⟩⟩

/-- Witness for the amended C1: one identified client record is restored
verbatim under its identifier into the fresh database. -/
theorem import_restores_verbatim_witness :
    (importAll snapOneClient initDB true).1.clients.data =
      [(Key.num 1, [("id", Json.jnum 1), ("name", Json.jstr "A")])] ∧
    (importAll snapOneClient initDB true).1.company.data = [] ∧
    ∃ c, (importAll snapOneClient initDB true).2 = .ok c := by
  have h := import_restores_verbatim snapOneClient initDB
    [Json.jobj [("id", Json.jnum 1), ("name", Json.jstr "A")]] [] [] []
    [(Key.num 1, [("id", Json.jnum 1), ("name", Json.jstr "A")])] [] [] []
    rfl rfl rfl rfl rfl rfl rfl rfl (by decide) (by decide) (by decide) (by decide)
  exact ⟨h.1, h.2.1, h.2.2.2.2⟩

/-- C8 counterexample: two successful imports that restore different
numbers of company records return identical counts objects — the result
reports no count for the company collection. -/
theorem import_counts_cex :
    (importAll snapOneCompany initDB true).2 = .ok ⟨0, 0, 0⟩ ∧
    (importAll snapEmpty initDB true).2 = .ok ⟨0, 0, 0⟩ ∧
    (importAll snapOneCompany initDB true).1.company.data.length = 1 ∧
    (importAll snapEmpty initDB true).1.company.data.length = 0 :=
  ⟨rfl, rfl, rfl, rfl⟩

/-- C8 (amended): a successful import returns counts for the clients,
invoices and timesheets collections only — each the number of entries in
the snapshot's array for that collection — and no count for company. -/
theorem import_counts (j : Obj) (db : DB) (b : Bool)
    (cs cos is tss : List Json) (c : ImportCounts)
    (hc : lookupField j "clients" = some (.jarr cs))
    (hco : lookupField j "company" = some (.jarr cos))
    (hi : lookupField j "invoices" = some (.jarr is))
    (ht : lookupField j "timesheets" = some (.jarr tss))
    (hok : (importAll j db b).2 = .ok c) :
    c = ⟨cs.length, is.length, tss.length⟩ := by
  obtain ⟨-, -, hlen⟩ := importAll_ok hok
  have hgc : getArrayField j "clients" = cs := by rw [getArrayField, hc]
  have hgi : getArrayField j "invoices" = is := by rw [getArrayField, hi]
  have hgt : getArrayField j "timesheets" = tss := by rw [getArrayField, ht]
  rw [hlen, hgc, hgi, hgt]

/-- Witness for the amended C8: importing `snapCounts` succeeds with
counts 2/1/0 for clients/invoices/timesheets, the lengths of those three
snapshot arrays. -/
theorem import_counts_witness :
    (importAll snapCounts initDB true).2 = .ok ⟨2, 1, 0⟩ ∧
    (⟨2, 1, 0⟩ : ImportCounts) =
      ⟨[Json.jobj [("id", Json.jnum 1)], Json.jobj [("id", Json.jnum 2)]].length,
       [Json.jobj [("id", Json.jnum 7)]].length, ([] : List Json).length⟩ :=
  ⟨rfl, import_counts snapCounts initDB true
    [Json.jobj [("id", Json.jnum 1)], Json.jobj [("id", Json.jnum 2)]]
    [Json.jobj [("id", Json.jstr "default")]]
    [Json.jobj [("id", Json.jnum 7)]] [] ⟨2, 1, 0⟩ rfl rfl rfl rfl rfl⟩

/-- C4: for every reachable database state, importing the snapshot that
`exportAll` produces for it yields exactly the same state — same records
under the same identifiers in every collection, and even the same key
generators — and succeeds, reporting the three collection sizes
(export followed by import is the identity on store state). -/
theorem export_import_roundtrip (ts : String) (db : DB) (h : Reach db) :
    (importAll (exportAll ts db) db true).1 = db ∧
    (importAll (exportAll ts db) db true).2 =
      .ok ⟨db.clients.data.length, db.invoices.data.length, db.timesheets.data.length⟩ := by
  have wf := reach_wf h
  have hnone : firstBadKey (exportAll ts db) = none := rfl
  have e1 : clearAndPut db.clients (getArrayField (exportAll ts db) "clients") =
      (db.clients, none) := by
    show clearAndPut db.clients ((getAllStore db.clients).map Json.jobj) = (db.clients, none)
    exact clearAndPut_getAll _ wf.wfc
  have e2 : clearAndPut db.company (getArrayField (exportAll ts db) "company") =
      (db.company, none) := by
    show clearAndPut db.company ((getAllStore db.company).map Json.jobj) = (db.company, none)
    exact clearAndPut_getAll _ wf.wfco
  have e3 : clearAndPut db.invoices (getArrayField (exportAll ts db) "invoices") =
      (db.invoices, none) := by
    show clearAndPut db.invoices ((getAllStore db.invoices).map Json.jobj) =
      (db.invoices, none)
    exact clearAndPut_getAll _ wf.wfi
  have e4 : clearAndPut db.timesheets (getArrayField (exportAll ts db) "timesheets") =
      (db.timesheets, none) := by
    show clearAndPut db.timesheets ((getAllStore db.timesheets).map Json.jobj) =
      (db.timesheets, none)
    exact clearAndPut_getAll _ wf.wft
  have hlen1 : (getArrayField (exportAll ts db) "clients").length = db.clients.data.length := by
    show ((getAllStore db.clients).map Json.jobj).length = _
    simp [getAllStore]
  have hlen3 : (getArrayField (exportAll ts db) "invoices").length =
      db.invoices.data.length := by
    show ((getAllStore db.invoices).map Json.jobj).length = _
    simp [getAllStore]
  have hlen4 : (getArrayField (exportAll ts db) "timesheets").length =
      db.timesheets.data.length := by
    show ((getAllStore db.timesheets).map Json.jobj).length = _
    simp [getAllStore]
  rw [importAll_run (exportAll ts db) db true hnone, stageStores_ok e1 e2 e3 e4]
  constructor
  · rfl
  · show Except.ok (ImportCounts.mk (getArrayField (exportAll ts db) "clients").length
      (getArrayField (exportAll ts db) "invoices").length
      (getArrayField (exportAll ts db) "timesheets").length) = _
    rw [hlen1, hlen3, hlen4]

/-- Witness for C4 at the reachable state obtained by putting one client
into the fresh database: export-then-import reproduces it. -/
theorem export_import_roundtrip_witness :
    (importAll (exportAll "t" (applyOp initDB (.cput (.jobj [("name", .jstr "A")])))) 
      (applyOp initDB (.cput (.jobj [("name", .jstr "A")]))) true).1 =
      applyOp initDB (.cput (.jobj [("name", .jstr "A")])) ∧
    (importAll (exportAll "t" (applyOp initDB (.cput (.jobj [("name", .jstr "A")])))) 
      (applyOp initDB (.cput (.jobj [("name", .jstr "A")]))) true).2 = .ok ⟨1, 0, 0⟩ :=
  export_import_roundtrip "t" (applyOp initDB (.cput (.jobj [("name", .jstr "A")])))
    ⟨[.cput (.jobj [("name", .jstr "A")])], rfl⟩
